import Mathlib

/-!
Verification of the adaptive content-acquisition and text-extraction
pipeline implemented in `src/api/scrape.js`.

Strings are modelled as `List Char` (the JavaScript code operates on
UTF-16 strings; every string reaching the relevant operations here is
plain text, so a character list is a faithful model).  JavaScript
regular-expression operations used by the source are modelled by
dedicated executable functions with the exact semantics of the regexes
appearing in the source (literal global replacement, greedy dot-star
marker matching, whitespace splitting).  Network effects are made
explicit through a `NetEnv` record describing what the remote endpoint
returns; the handler is a pure function of the request and that record.
-/

/-- Abbreviation turning a string literal into the character-list model. -/
def str (s : String) : List Char := s.toList

/-- The JavaScript `\s` character class (also used by `String.prototype.trim`):
tab, line feed, vertical tab, form feed, carriage return, space, NBSP and
the Unicode space separators recognised by ECMAScript. -/
def isJsWs (c : Char) : Bool :=
  c == ' ' || c == '\t' || c == '\n' || c == '\x0b' || c == '\x0c' ||
  c == '\r' || c.toNat == 0xa0 || c.toNat == 0x1680 ||
  (0x2000 ≤ c.toNat && c.toNat ≤ 0x200a) ||
  c.toNat == 0x2028 || c.toNat == 0x2029 || c.toNat == 0x202f ||
  c.toNat == 0x205f || c.toNat == 0x3000 || c.toNat == 0xfeff

/-- Worker for `replaceAllL`; the fuel argument (always instantiated with
the list length, which bounds the number of steps) makes the recursion
structural so that the kernel can evaluate it. -/
def replaceGo (pat rep : List Char) : Nat → List Char → List Char
  | 0, l => l
  | _ + 1, [] => []
  | fuel + 1, c :: cs =>
    if pat ≠ [] ∧ pat.isPrefixOf (c :: cs) then
      rep ++ replaceGo pat rep fuel (List.drop (pat.length - 1) cs)
    else
      c :: replaceGo pat rep fuel cs

/-- Model of JavaScript `s.replace(/lit/g, rep)` for a literal, nonempty
pattern `pat`: leftmost, non-overlapping replacement. -/
def replaceAllL (pat rep l : List Char) : List Char :=
  replaceGo pat rep l.length l

/-- Model of `s.replace(/\s+/g, ' ')`: every maximal run of whitespace
becomes a single space. -/
def collapseWs : List Char → List Char
  | [] => []
  | [c] => if isJsWs c then [' '] else [c]
  | c :: d :: cs =>
    if isJsWs c && isJsWs d then collapseWs (d :: cs)
    else (if isJsWs c then ' ' else c) :: collapseWs (d :: cs)

/-- Worker for `stripTags`, fuel-structural for kernel evaluation. -/
def stripTagsGo : Nat → List Char → List Char
  | 0, l => l
  | _ + 1, [] => []
  | fuel + 1, c :: cs =>
    if c = '<' ∧ cs.takeWhile (fun d => d ≠ '>') ≠ [] ∧
        cs.dropWhile (fun d => d ≠ '>') ≠ [] then
      ' ' :: stripTagsGo fuel (cs.dropWhile (fun d => d ≠ '>')).tail
    else
      c :: stripTagsGo fuel cs

/-- Model of `s.replace(/<[^>]+>/g, ' ')`: each `<`, followed by at least
one non-`>` character, up to the next `>`, is replaced by a space. -/
def stripTags (l : List Char) : List Char := stripTagsGo l.length l

/-- Left half of JavaScript `trim`: drop leading whitespace. -/
def trimLeftL (l : List Char) : List Char := l.dropWhile isJsWs

/-- Right half of JavaScript `trim`: drop trailing whitespace. -/
def trimRightL (l : List Char) : List Char := (l.reverse.dropWhile isJsWs).reverse

/-- Model of JavaScript `String.prototype.trim`. -/
def jsTrim (l : List Char) : List Char := trimRightL (trimLeftL l)

/-- The entity-decoding pass of `cleanText` (src/api/scrape.js:395-401):
the six-plus-one literal replacements, in source order. -/
def decodeEntities (l : List Char) : List Char :=
  let l1 := replaceAllL (str "&quot;") (str "\"") l
  let l2 := replaceAllL (str "&amp;") (str "&") l1
  let l3 := replaceAllL (str "&lt;") (str "<") l2
  let l4 := replaceAllL (str "&gt;") (str ">") l3
  let l5 := replaceAllL (str "&nbsp;") (str " ") l4
  let l6 := replaceAllL (str "&#39;") (str "'") l5
  replaceAllL (str "&hellip;") (str "...") l6

/-- Model of `cleanText` (src/api/scrape.js:393-405): decode entities,
strip remaining tags, collapse whitespace runs, trim. -/
def cleanText (l : List Char) : List Char :=
  jsTrim (collapseWs (stripTags (decodeEntities l)))

/-- Worker for `collapseNewlines`, fuel-structural for kernel evaluation. -/
def collapseNLGo : Nat → List Char → List Char
  | 0, l => l
  | _ + 1, [] => []
  | fuel + 1, c :: cs =>
    if c = '\n' ∧ (cs.takeWhile (fun d => d = '\n')).length ≥ 2 then
      '\n' :: '\n' :: collapseNLGo fuel (cs.dropWhile (fun d => d = '\n'))
    else
      c :: collapseNLGo fuel cs

/-- Model of `s.replace(/\n{3,}/g, '\n\n')` (src/api/scrape.js:67): every
run of three or more line feeds becomes exactly two. -/
def collapseNewlines (l : List Char) : List Char := collapseNLGo l.length l

/-- Worker for `jsSplitWs`, fuel-structural for kernel evaluation. -/
def jsSplitWsGo : Nat → List Char → List Char → List (List Char)
  | 0, _, cur => [cur.reverse]
  | _ + 1, [], cur => [cur.reverse]
  | fuel + 1, c :: cs, cur =>
    if isJsWs c then cur.reverse :: jsSplitWsGo fuel (cs.dropWhile isJsWs) []
    else jsSplitWsGo fuel cs (c :: cur)

/-- Model of JavaScript `s.split(/\s+/)`: split at maximal whitespace runs;
a leading or trailing run contributes an empty field, and splitting the
empty string yields one empty field. -/
def jsSplitWs (l : List Char) : List (List Char) := jsSplitWsGo l.length l []

/-- Word count as computed by the handler (src/api/scrape.js:104):
`split(/\s+/).filter(w => w.length > 0).length`. -/
def wordCountOf (t : List Char) : Nat :=
  (jsSplitWs t).countP (fun w => !w.isEmpty)

/-- Case-insensitive character comparison, for the `/i` regex flag. -/
def ciEqChar (a b : Char) : Bool := a.toLower == b.toLower

/-- Case-insensitive literal match at the head of a list. -/
def ciHeadMatch : List Char → List Char → Bool
  | [], _ => true
  | _ :: _, [] => false
  | p :: ps, c :: cs => ciEqChar p c && ciHeadMatch ps cs

/-- Characters matched by `.` in a JavaScript regex without the `s` flag:
everything except the four ECMAScript line terminators. -/
def isDotChar (c : Char) : Bool :=
  !(c == '\n' || c == '\r' || c.toNat == 0x2028 || c.toNat == 0x2029)

/-- Greedy search for the tail ` ***` of the Gutenberg marker patterns:
given the text following the literal head, returns the largest `k` such
that the first `k` characters are all `.`-matchable and ` ***` matches
(case-insensitively, trivially here) at position `k`. -/
def greedyEndGo : List Char → Nat → Option Nat → Option Nat
  | [], _, best => best
  | c :: cs, k, best =>
    let best2 := if ciHeadMatch (str " ***") (c :: cs) then some k else best
    if isDotChar c then greedyEndGo cs (k + 1) best2 else best2

/-- Model of `text.match(/LIT.* \*\*\*/i)` for a literal head `lit`
(either `"*** START OF "` or `"*** END OF "`): returns the position and
length of the leftmost match, with the `.*` matched greedily. -/
def findMarker (lit : List Char) : List Char → Option (Nat × Nat)
  | [] => none
  | c :: cs =>
    if ciHeadMatch lit (c :: cs) then
      match greedyEndGo (List.drop lit.length (c :: cs)) 0 none with
      | some k => some (0, lit.length + k + 4)
      | none =>
        match findMarker lit cs with
        | some (i, len) => some (i + 1, len)
        | none => none
    else
      match findMarker lit cs with
      | some (i, len) => some (i + 1, len)
      | none => none

/-- Model of JavaScript `hay.indexOf(needle)` (exact, case-sensitive);
`none` models the `-1` result. -/
def indexOfL (needle : List Char) : List Char → Option Nat
  | [] => if needle.isEmpty then some 0 else none
  | c :: cs =>
    if needle.isPrefixOf (c :: cs) then some 0
    else
      match indexOfL needle cs with
      | some j => some (j + 1)
      | none => none

/-- Model of the Gutenberg cleanup (src/api/scrape.js:71-86): match the
start and end marker patterns against the incoming text, cut everything
up to and including the start match (located again via `indexOf`), then
cut from the end match onward when `indexOf` finds it at a positive
index in the already-cut text. -/
def gutenbergCleanup (t : List Char) : List Char :=
  let startM := findMarker (str "*** START OF ") t
  let endM := findMarker (str "*** END OF ") t
  let t1 :=
    match startM with
    | some (i, len) =>
      let matched := (t.drop i).take len
      match indexOfL matched t with
      | some j => t.drop (j + len)
      | none => t
    | none => t
  match endM with
  | some (i, len) =>
    let matched := (t.drop i).take len
    match indexOfL matched t1 with
    | some j => if j > 0 then t1.take j else t1
    | none => t1
  | none => t1

/-- Model of JavaScript `hay.includes(needle)`. -/
def containsL (needle hay : List Char) : Bool := (indexOfL needle hay).isSome

/-- Model of JavaScript `hay.endsWith(needle)`. -/
def endsWithL (needle hay : List Char) : Bool :=
  needle.reverse.isPrefixOf hay.reverse

/-- Model of the plain-text branch of the handler (src/api/scrape.js:63-86):
normalise CRLF, collapse 3+ line feeds to two, trim, and apply the
Gutenberg cleanup when the URL mentions `gutenberg.org`. -/
def plainTextProcess (url content : List Char) : List Char :=
  let t := jsTrim (collapseNewlines (replaceAllL (str "\r\n") (str "\n") content))
  if containsL (str "gutenberg.org") url then gutenbergCleanup t else t

/-- Scheme-name characters per the WHATWG URL standard. -/
def isAlphaChar (c : Char) : Bool :=
  ('a' ≤ c && c ≤ 'z') || ('A' ≤ c && c ≤ 'Z')

/-- Characters allowed after the first character of a URL scheme. -/
def isSchemeChar (c : Char) : Bool :=
  isAlphaChar c || c.isDigit || c == '+' || c == '-' || c == '.'

/-- Result of a successful `new URL(...)` parse; only the scheme is
relevant to this pipeline. -/
structure ParsedURL where
  scheme : List Char
deriving DecidableEq

/-- The WHATWG special schemes that require a nonempty host. -/
def specialSchemes : List (List Char) :=
  [str "http", str "https", str "ws", str "wss", str "ftp"]

/-- Models the platform `new URL(url)` constructor used for validation at
src/api/scrape.js:23 (a platform builtin, not repository code): an
absolute URL needs a scheme (a letter followed by scheme characters)
terminated by `:`; special schemes additionally need a nonempty host
after optional slashes; any scheme — not only HTTP/HTTPS — parses.
Only acceptance and the scheme are modelled; the handler uses nothing
else of the parse. -/
def jsParseURL (u : List Char) : Option ParsedURL :=
  let schemeRaw := u.takeWhile (fun c => c ≠ ':')
  match u.dropWhile (fun c => c ≠ ':') with
  | [] => none
  | _ :: rest =>
    match schemeRaw with
    | [] => none
    | c0 :: _ =>
      if isAlphaChar c0 && schemeRaw.all isSchemeChar then
        let scheme := schemeRaw.map Char.toLower
        if specialSchemes.contains scheme then
          let afterSlashes := rest.dropWhile (fun c => c == '/' || c == '\\')
          let host := afterSlashes.takeWhile
            (fun c => !(c == '/' || c == '?' || c == '#' || c == '\\' || c == ':'))
          if host = [] then none else some ⟨scheme⟩
        else some ⟨scheme⟩
      else none

/-- Fetch-stage failures; `netFail` models the platform `fetch` promise
rejecting (its message `"fetch failed"` contains `"fetch"`), the others
model the explicit `throw new Error(...)` sites of the source. -/
inductive FetchErr where
  | netFail
  | http (status : Nat)
  | tooLarge
  | batchFailed (status : Nat)
deriving DecidableEq

deriving instance DecidableEq for Except

/-- A response to a ranged GET request. -/
structure RangeResp where
  ok : Bool
  status : Nat
  body : List Char

/-- Explicit model of what the remote endpoint returns for each kind of
request the handler can make: HEAD probes (`contentLength`,
`contentType`), a plain GET (`getOk`, `getStatus`, `body`), ranged GETs
(`range`), and the chunk sequence delivered when the body is streamed
(`chunks`).  `reachable = false` models every `fetch` call rejecting. -/
structure NetEnv where
  reachable : Bool
  contentLength : Option Nat
  contentType : Option (List Char)
  getOk : Bool
  getStatus : Nat
  body : List Char
  range : Nat → Nat → RangeResp
  chunks : List (List Char)

/-- Model of `checkFileSize` (src/api/scrape.js:408-416): HEAD probe;
a missing header or any failure yields 0. -/
def checkFileSize (env : NetEnv) : Nat :=
  if env.reachable then
    match env.contentLength with
    | some n => n
    | none => 0
  else 0

/-- Model of `getContentType` (src/api/scrape.js:419-426): HEAD probe;
a missing header or any failure yields the empty string. -/
def getContentType (env : NetEnv) : List Char :=
  if env.reachable then env.contentType.getD [] else []

/-- Model of `fetchComplete` (src/api/scrape.js:429-451): plain GET,
non-ok status throws, a realized size over 500,000 characters throws. -/
def fetchComplete (env : NetEnv) : Except FetchErr (List Char) :=
  if !env.reachable then .error .netFail
  else if !env.getOk then .error (.http env.getStatus)
  else if env.body.length > 500000 then .error .tooLarge
  else .ok env.body

/-- Inclusive start of the byte range requested by `fetchSample`. -/
def sampleRangeStart : Nat := 0

/-- Inclusive end of the byte range requested by `fetchSample`
(the header is `Range: bytes=0-200000`, src/api/scrape.js:462). -/
def sampleRangeEnd : Nat := 200000

/-- Word target of the early-stop stream (src/api/scrape.js:484). -/
def earlyStopTarget : Nat := 15000

/-- Loop of `fetchWithEarlyStop` (src/api/scrape.js:487-501): append
decoded chunks; whenever the accumulated length is an exact multiple of
10,000, recount the words (`split(/\s+/).length`) and stop once the
count exceeds the target. -/
def earlyStopGo : List (List Char) → List Char → List Char
  | [], acc => acc
  | chunk :: rest, acc =>
    let t := acc ++ chunk
    if t.length % 10000 == 0 && (jsSplitWs t).length > earlyStopTarget then t
    else earlyStopGo rest t

/-- Model of `fetchWithEarlyStop` (src/api/scrape.js:477-507). -/
def fetchWithEarlyStop (env : NetEnv) : List Char :=
  earlyStopGo env.chunks []

/-- Model of `fetchSample` (src/api/scrape.js:454-474): ranged GET for
bytes 0-200000; only a response that is neither ok nor 206 triggers the
early-stop streaming fallback — any ok response body (a 206 prefix or a
full 200 body from a server that ignored the Range header) is returned
as-is. -/
def fetchSample (env : NetEnv) : Except FetchErr (List Char) :=
  if !env.reachable then .error .netFail
  else
    let r := env.range sampleRangeStart sampleRangeEnd
    if !r.ok && r.status != 206 then .ok (fetchWithEarlyStop env)
    else .ok r.body

/-- Model of `fetchBatch` (src/api/scrape.js:510-533): ranged GET for the
150,000-byte window of the given index; neither-ok-nor-206 throws. -/
def fetchBatch (env : NetEnv) (batchNumber : Nat) : Except FetchErr (List Char) :=
  if !env.reachable then .error .netFail
  else
    let start := batchNumber * 150000
    let r := env.range start (start + 150000 - 1)
    if !r.ok && r.status != 206 then .error (.batchFailed r.status)
    else .ok r.body

/-- The fetch plan implicit in the handler's dispatch (src/api/scrape.js:51-57). -/
inductive FetchPlan where
  | complete
  | sample
  | batchPlan (i : Nat)
deriving DecidableEq

/-- JavaScript truthiness of the `mode` query parameter: absent or empty
is falsy (`!mode` at src/api/scrape.js:35). -/
def jsFalsyMode : Option (List Char) → Bool
  | none => true
  | some [] => true
  | some (_ :: _) => false

/-- Plan selection, the if/else chain at src/api/scrape.js:51-57: batch
and sample fetchers run only for large files; everything else — any mode
with a small or unknown size, or no mode — fetches completely. -/
def selectPlan (isLargeFile : Bool) (mode : Option (List Char))
    (batchIdx : Nat) : FetchPlan :=
  if mode == some (str "batch") && isLargeFile then .batchPlan batchIdx
  else if mode == some (str "sample") && isLargeFile then .sample
  else .complete

/-- Dispatch of a selected plan to its fetcher. -/
def runPlan (env : NetEnv) : FetchPlan → Except FetchErr (List Char)
  | .complete => fetchComplete env
  | .sample => fetchSample env
  | .batchPlan i => fetchBatch env i

/-- The request triple consumed from the request shell; `batch` arrives
already defaulted (`parseInt(batch) || 0`, src/api/scrape.js:52,114). -/
structure Request where
  url : Option (List Char)
  mode : Option (List Char)
  batch : Nat

/-- The JSON responses the handler can produce.  The `success` payload
mirrors the object literal at src/api/scrape.js:108-115 exactly; its
`truncated` field is `none` because that literal carries no such key
(`some b` would model a literal `truncated: b`). -/
inductive HandlerResult where
  | errorResp (status : Nat) (error : List Char)
  | needsModeChoice (fileSize : Nat) (fileSizeMBtenths : Nat)
      (optionSample optionBatch message : List Char)
  | success (text : List Char) (wordCount : Nat) (url : List Char)
      (mode : List Char) (batch : Nat) (truncated : Option Bool)
deriving DecidableEq

/-- `(contentLength / 1024 / 1024).toFixed(1)` (src/api/scrape.js:41), in
tenths of a MB.  The double `contentLength / 2^20` is exact (a division
by a power of two of an integer below 2^53), and `toFixed(1)` rounds to
the nearest tenth with ties away from zero, which over naturals is
`(10n + 2^19) / 2^20` in integer arithmetic. -/
def mbTenths (n : Nat) : Nat := (n * 10 + 524288) / 1048576

/-- The marker appended on truncation (src/api/scrape.js:94). -/
def truncMarker : List Char := str "\n\n[Truncated for processing]"

/-- `mode || 'complete'` (src/api/scrape.js:113). -/
def modeEcho : Option (List Char) → List Char
  | none => str "complete"
  | some [] => str "complete"
  | some (c :: cs) => c :: cs

/-- Final bounding and packaging (src/api/scrape.js:92-115): truncate to
100,000 characters plus a marker unless the requested mode is `sample`,
reject texts under 50 characters, else answer with the word count of the
final text. -/
def finalize (mode : Option (List Char)) (batchIdx : Nat)
    (url extractedText : List Char) : HandlerResult :=
  let t :=
    if mode ≠ some (str "sample") ∧ extractedText.length > 100000 then
      extractedText.take 100000 ++ truncMarker
    else extractedText
  if t.length < 50 then
    .errorResp 400 (str "Could not extract meaningful text from this URL")
  else
    .success t (wordCountOf t) url (modeEcho mode) batchIdx none

/-- The catch-block message selection (src/api/scrape.js:117-130): an
abort gives `"Request timed out"` (timeouts are outside this model), a
message containing `"fetch"` gives `"Could not connect to URL"` (the
platform rejection message `"fetch failed"` and the thrown
`"Batch fetch failed: ..."`), anything else the generic message. -/
def fetchErrMsg : FetchErr → List Char
  | .netFail => str "Could not connect to URL"
  | .http _ => str "Failed to scrape URL"
  | .tooLarge => str "Failed to scrape URL"
  | .batchFailed _ => str "Could not connect to URL"

/-- Model of the handler (src/api/scrape.js:1-132), parametrised by the
HTML extraction stage `extractHTML` (the `intelligentExtraction` family,
src/api/scrape.js:135-405, which no claim here inspects): validate the
URL, probe the size, short-circuit to the mode-choice response for large
files without a mode, fetch per the selected plan, extract (plain text
inline, HTML via `extractHTML`), then bound and package. -/
def handler (extractHTML : List Char → List Char → List Char)
    (req : Request) (env : NetEnv) : HandlerResult :=
  match req.url with
  | none => .errorResp 400 (str "URL parameter is required")
  | some url =>
    if url = [] then .errorResp 400 (str "URL parameter is required")
    else if (jsParseURL url).isNone then .errorResp 400 (str "Invalid URL")
    else
      let contentLength := checkFileSize env
      let isLargeFile : Bool := decide (contentLength > 1000000)
      if isLargeFile && jsFalsyMode req.mode then
        .needsModeChoice contentLength (mbTenths contentLength)
          (str "Get first 10,000 words")
          (str "Process in batches (experimental)")
          (str "Large file detected. Choose processing method.")
      else
        match runPlan env (selectPlan isLargeFile req.mode req.batch) with
        | .error e => .errorResp 500 (fetchErrMsg e)
        | .ok htmlContent =>
          let contentType := getContentType env
          let extractedText :=
            if containsL (str "text/plain") contentType ||
                endsWithL (str ".txt") url then
              plainTextProcess url htmlContent
            else extractHTML htmlContent url
          finalize req.mode req.batch url extractedText

/-! ## Concrete environments used by witnesses and counterexamples -/

/-- A reachable endpoint serving a 60-character plain-text body. -/
def envSmallTxt : NetEnv where
  reachable := true
  contentLength := some 1000
  contentType := some (str "text/plain")
  getOk := true
  getStatus := 200
  body := str "aaaaaaaaaaaaaaaaaaaaaaaaaaaaaaaaaaaaaaaaaaaaaaaaaaaaaaaaaaaa"
  range := fun _ _ => ⟨true, 206, []⟩
  chunks := []

/-- An endpoint whose HEAD probe reports a 5,000,000-byte resource. -/
def envLargeProbe : NetEnv := { envSmallTxt with contentLength := some 5000000 }

/-- An endpoint whose HEAD probe carries no content-length header. -/
def envNoLength : NetEnv := { envSmallTxt with contentLength := none }

/-- An unreachable endpoint: every fetch rejects. -/
def envUnreachable : NetEnv where
  reachable := false
  contentLength := none
  contentType := none
  getOk := false
  getStatus := 0
  body := []
  range := fun _ _ => ⟨false, 0, []⟩
  chunks := []

/-- An endpoint that ignores `Range` and answers every request with a
200 response carrying the complete body. -/
def envRangeIgnored : NetEnv where
  reachable := true
  contentLength := some 5000000
  contentType := some (str "text/plain")
  getOk := true
  getStatus := 200
  body := str "COMPLETE UNTRUNCATED BODY"
  range := fun _ _ => ⟨true, 200, str "COMPLETE UNTRUNCATED BODY"⟩
  chunks := [str "STREAMED CHUNK"]

/-- An endpoint answering ranged requests with 416 and streaming one chunk. -/
def envRangeRefused : NetEnv := { envRangeIgnored with
  range := fun _ _ => ⟨false, 416, str "RANGE NOT SATISFIABLE"⟩ }

/-! ## C3 -/

/-- C3: for every request whose probed size exceeds the 1,000,000-byte
threshold and whose requested mode is unset (absent or empty, the falsy
values of `!mode`), the handler returns the mode-choice response carrying
the probed size in bytes and in MB to one decimal plus the selectable
modes — and (being that response) never a text result. -/
theorem C3_needs_mode_choice (e : List Char → List Char → List Char)
    (env : NetEnv) (url : List Char) (p : ParsedURL)
    (mode : Option (List Char)) (batchIdx : Nat)
    (hparse : jsParseURL url = some p)
    (hsize : 1000000 < checkFileSize env)
    (hmode : jsFalsyMode mode = true) :
    handler e ⟨some url, mode, batchIdx⟩ env =
      .needsModeChoice (checkFileSize env) (mbTenths (checkFileSize env))
        (str "Get first 10,000 words")
        (str "Process in batches (experimental)")
        (str "Large file detected. Choose processing method.") := by
  have hne : url ≠ [] := by
    intro h
    rw [h] at hparse
    exact Option.noConfusion hparse
  have hlarge : decide (checkFileSize env > 1000000) = true := decide_eq_true hsize
  simp only [handler, if_neg hne, hparse, Option.isNone_some, Bool.false_eq_true,
    if_false, hlarge, hmode, Bool.and_self, if_true]

/-- Witness for C3 at a concrete 5,000,000-byte probe (4.8 MB). -/
theorem C3_witness :
    handler (fun _ _ => []) ⟨some (str "http://example.com/a.txt"), none, 0⟩ envLargeProbe =
      .needsModeChoice 5000000 48
        (str "Get first 10,000 words")
        (str "Process in batches (experimental)")
        (str "Large file detected. Choose processing method.") := by
  have h := C3_needs_mode_choice (fun _ _ => [])
    envLargeProbe (str "http://example.com/a.txt") ⟨str "http"⟩ none 0
    (by decide) (by decide) (by decide)
  exact h.trans (by decide)

/-! ## C4 -/

/-- C4: for every request whose probed byte length is unknown (no
content-length header, or an unreachable probe: both make
`checkFileSize` answer 0) or at most 1,000,000 bytes, the plan the
handler selects is `Complete` regardless of the requested mode. -/
theorem C4_small_or_unknown_selects_complete
    (env : NetEnv) (mode : Option (List Char)) (batchIdx : Nat)
    (h : env.contentLength = none ∨ env.reachable = false ∨
      checkFileSize env ≤ 1000000) :
    selectPlan (decide (checkFileSize env > 1000000)) mode batchIdx =
      FetchPlan.complete := by
  have hsz : checkFileSize env ≤ 1000000 := by
    rcases h with h | h | h
    · unfold checkFileSize
      rw [h]
      split <;> simp
    · unfold checkFileSize
      rw [h]
      simp
    · exact h
  have hlarge : decide (checkFileSize env > 1000000) = false := by
    simp [hsz, Nat.not_lt.mpr hsz]
  rw [hlarge]
  unfold selectPlan
  simp

/-- Witness for C4: a probe without a content-length header together with
the requested mode `sample` still selects the complete plan. -/
theorem C4_witness :
    selectPlan (decide (checkFileSize envNoLength > 1000000))
      (some (str "sample")) 0 = FetchPlan.complete :=
  C4_small_or_unknown_selects_complete envNoLength (some (str "sample")) 0
    (Or.inl rfl)

/-! ## C5 -/

/-- C5 counterexample: on the spec's own example input the extraction
yields the empty string, not `"body text"`: the `/\*\*\* START OF .* \*\*\*/i`
match is greedy, so on this single-line input the start marker spans the
entire string and everything is excised. -/
theorem C5_counterexample :
    plainTextProcess (str "https://www.gutenberg.org/files/1.txt")
        (str "*** START OF EXAMPLE ***body text*** END OF EXAMPLE ***") = [] ∧
    plainTextProcess (str "https://www.gutenberg.org/files/1.txt")
        (str "*** START OF EXAMPLE ***body text*** END OF EXAMPLE ***") ≠
      str "body text" := by
  decide

set_option maxRecDepth 40000 in
/-- C5 amended: the marker patterns match greedily (to the last ` ***`
reachable on the matched line), so the spec's single-line example
extracts the empty string, which the pipeline then rejects as
insufficient; when each marker sits on its own line — the layout of real
Gutenberg transmissions — the excision does cut at the markers, leaving
the body with its adjacent line breaks (the result is not re-trimmed). -/
theorem C5_amended_gutenberg_greedy :
    plainTextProcess (str "https://www.gutenberg.org/files/1.txt")
        (str "*** START OF EXAMPLE ***body text*** END OF EXAMPLE ***") = [] ∧
    plainTextProcess (str "https://www.gutenberg.org/files/1.txt")
        (str "Preamble\n*** START OF THE PROJECT GUTENBERG EBOOK X ***\nbody text\n*** END OF THE PROJECT GUTENBERG EBOOK X ***\nLicense") =
      str "\nbody text\n" := by
  decide

/-! ## C6 counterexample -/

/-- C6 counterexample: `clean` is not idempotent.  On `"&amp;quot;"` one
application decodes `&amp;` and produces `"&quot;"`; a second application
decodes that in turn to `"\""`. -/
theorem C6_counterexample :
    cleanText (cleanText (str "&amp;quot;")) ≠ cleanText (str "&amp;quot;") := by
  decide

/-! ## C7 -/

/-- C7: entity-decoding precedes tag-stripping: `"&lt;p&gt;x&lt;/p&gt;"`
cleans to `"x"` (the decoded `<p>`/`</p>` are stripped in the same pass),
not to the tag-preserving `"<p>x</p>"`. -/
theorem C7_entity_decode_precedes_tag_strip :
    cleanText (str "&lt;p&gt;x&lt;/p&gt;") = str "x" ∧
    cleanText (str "&lt;p&gt;x&lt;/p&gt;") ≠ str "<p>x</p>" := by
  decide

/-! ## C9 -/

/-- C9 counterexample: a server that does not honor range semantics and
answers the ranged request with a plain 200 carrying the complete body
does NOT trigger the streaming fallback — the full body is returned
as-is (the fallback only fires on a response that is neither ok nor
206). -/
theorem C9_counterexample :
    fetchSample envRangeIgnored = .ok (str "COMPLETE UNTRUNCATED BODY") ∧
    fetchSample envRangeIgnored ≠ .ok (fetchWithEarlyStop envRangeIgnored) := by
  decide

/-- Step equation of the early-stop loop, for reasoning about it without
unfolding the `let`. -/
theorem earlyStopGo_cons (chunk : List Char) (rest : List (List Char))
    (acc : List Char) :
    earlyStopGo (chunk :: rest) acc =
      if ((acc ++ chunk).length % 10000 == 0 &&
          decide ((jsSplitWs (acc ++ chunk)).length > earlyStopTarget)) = true then
        acc ++ chunk
      else earlyStopGo rest (acc ++ chunk) := rfl

/-- C9 amended: the sample fetcher requests the inclusive byte range
0-200000 — 200,001 bytes, not 200,000; any ok response (including a full
200 body from a server that ignored the Range header) and any 206
response are returned as-is; only a response that is neither ok nor 206
falls back to the early-stop stream, which appends chunks and stops
early exactly when the accumulated length is a multiple of 10,000 and
the `split(/\s+/)` count exceeds 15,000. -/
theorem C9_amended_sample_fetch (env : NetEnv) (hr : env.reachable = true) :
    sampleRangeEnd - sampleRangeStart + 1 = 200001 ∧
    ((env.range sampleRangeStart sampleRangeEnd).ok = true →
      fetchSample env = .ok (env.range sampleRangeStart sampleRangeEnd).body) ∧
    ((env.range sampleRangeStart sampleRangeEnd).status = 206 →
      fetchSample env = .ok (env.range sampleRangeStart sampleRangeEnd).body) ∧
    ((env.range sampleRangeStart sampleRangeEnd).ok = false →
      (env.range sampleRangeStart sampleRangeEnd).status ≠ 206 →
      fetchSample env = .ok (fetchWithEarlyStop env)) ∧
    (∀ chunk rest acc,
      ((acc ++ chunk).length % 10000 == 0 &&
        decide ((jsSplitWs (acc ++ chunk)).length > earlyStopTarget)) = false →
      earlyStopGo (chunk :: rest) acc = earlyStopGo rest (acc ++ chunk)) ∧
    (∀ chunk rest acc,
      ((acc ++ chunk).length % 10000 == 0 &&
        decide ((jsSplitWs (acc ++ chunk)).length > earlyStopTarget)) = true →
      earlyStopGo (chunk :: rest) acc = acc ++ chunk) := by
  refine ⟨by decide, ?_, ?_, ?_, ?_, ?_⟩
  · intro hok
    unfold fetchSample
    rw [hr]
    simp [hok]
  · intro h206
    unfold fetchSample
    rw [hr]
    simp [h206]
  · intro hok h206
    unfold fetchSample
    rw [hr]
    simp [hok, h206]
  · intro chunk rest acc h
    rw [earlyStopGo_cons, h, if_neg Bool.false_ne_true]
  · intro chunk rest acc h
    rw [earlyStopGo_cons, h, if_pos rfl]

/-- Witness for C9 at concrete endpoints: a range-ignoring 200 server
yields its body, a range-refusing 416 server yields the streamed text. -/
theorem C9_witness :
    fetchSample envRangeIgnored = .ok (str "COMPLETE UNTRUNCATED BODY") ∧
    fetchSample envRangeRefused = .ok (str "STREAMED CHUNK") :=
  ⟨((C9_amended_sample_fetch envRangeIgnored rfl).2.1 rfl).trans (by decide),
   (((C9_amended_sample_fetch envRangeRefused rfl).2.2.2.1 rfl (by decide)).trans (by decide))⟩

/-! ## C8 -/

/-- A reachable endpoint used to show that a parseable non-HTTP URL
reaches the network stage: results for it differ between environments. -/
def envFtpReach : NetEnv where
  reachable := true
  contentLength := some 100
  contentType := some (str "text/plain")
  getOk := true
  getStatus := 200
  body := str "bbbbbbbbbbbbbbbbbbbbbbbbbbbbbbbbbbbbbbbbbbbbbbbbbbbbbbbbbbbb"
  range := fun _ _ => ⟨true, 206, []⟩
  chunks := []

/-- C8 counterexample: `"ftp://example.com/a.txt"` parses (the validation
at src/api/scrape.js:23 never inspects the scheme), so the request is NOT
rejected as invalid input: against an unreachable network it surfaces a
fetch failure, and against a reachable one it even succeeds — the result
depends on the network, so network access is performed. -/
theorem C8_counterexample :
    jsParseURL (str "ftp://example.com/a.txt") = some ⟨str "ftp"⟩ ∧
    handler (fun _ _ => []) ⟨some (str "ftp://example.com/a.txt"), none, 0⟩
        envUnreachable = .errorResp 500 (str "Could not connect to URL") ∧
    handler (fun _ _ => []) ⟨some (str "ftp://example.com/a.txt"), none, 0⟩
        envUnreachable ≠ .errorResp 400 (str "Invalid URL") ∧
    handler (fun _ _ => []) ⟨some (str "ftp://example.com/a.txt"), none, 0⟩
        envFtpReach ≠
      handler (fun _ _ => []) ⟨some (str "ftp://example.com/a.txt"), none, 0⟩
        envUnreachable := by
  decide

/-- C8 amended: validation checks parseability only.  A nonempty url that
fails to parse is rejected with `Invalid URL` identically in every
network environment (so without network access); a url that parses —
regardless of scheme, HTTP or not — passes validation and proceeds to
the fetch stage (counterexample above). -/
theorem C8_amended_validation (e : List Char → List Char → List Char)
    (env : NetEnv) (mode : Option (List Char)) (batchIdx : Nat)
    (url : List Char) (hne : url ≠ []) (h : jsParseURL url = none) :
    handler e ⟨some url, mode, batchIdx⟩ env =
      .errorResp 400 (str "Invalid URL") := by
  simp only [handler, if_neg hne, h, Option.isNone_none, if_true]

/-- Witness for C8 at the concrete unparseable url `"notaurl"`. -/
theorem C8_witness :
    handler (fun _ _ => []) ⟨some (str "notaurl"), none, 0⟩ envUnreachable =
      .errorResp 400 (str "Invalid URL") :=
  C8_amended_validation (fun _ _ => []) envUnreachable none 0 (str "notaurl")
    (by decide) (by decide)

/-! ## Inversion of a successful handler run -/

/-- The truncation marker is 28 characters long. -/
theorem truncMarker_length : truncMarker.length = 28 := rfl

/-- What `finalize` guarantees about any success it produces: at least 50
characters (the explicit floor), at most 100,000 plus the 28-character
marker when the requested mode is not `sample`, and no `truncated`
field. -/
theorem finalize_success_inv (mode : Option (List Char)) (batchIdx : Nat)
    (url x t : List Char) (w : Nat) (u m : List Char) (b : Nat)
    (tr : Option Bool)
    (h : finalize mode batchIdx url x = .success t w u m b tr) :
    50 ≤ t.length ∧ (mode ≠ some (str "sample") → t.length ≤ 100028) ∧
      tr = none := by
  unfold finalize at h
  by_cases hc : mode ≠ some (str "sample") ∧ x.length > 100000
  · rw [if_pos hc] at h
    by_cases hlen : (x.take 100000 ++ truncMarker).length < 50
    · rw [if_pos hlen] at h
      exact absurd h (by simp)
    · rw [if_neg hlen] at h
      simp only [HandlerResult.success.injEq] at h
      obtain ⟨ht, -, -, -, -, htr⟩ := h
      subst ht
      refine ⟨by omega, fun _ => ?_, htr.symm⟩
      have : (x.take 100000).length ≤ 100000 := by
        simp [List.length_take]
      simp only [List.length_append, truncMarker_length]
      omega
  · rw [if_neg hc] at h
    by_cases hlen : x.length < 50
    · rw [if_pos hlen] at h
      exact absurd h (by simp)
    · rw [if_neg hlen] at h
      simp only [HandlerResult.success.injEq] at h
      obtain ⟨ht, -, -, -, -, htr⟩ := h
      subst ht
      refine ⟨by omega, fun hm => ?_, htr.symm⟩
      rcases Decidable.not_and_iff_or_not.mp hc with h1 | h2
      · exact absurd hm h1
      · omega

/-- Every success the handler produces comes out of `finalize`, so it
inherits the `finalize` guarantees. -/
theorem handler_success_inv (e : List Char → List Char → List Char)
    (req : Request) (env : NetEnv) (t : List Char) (w : Nat)
    (u m : List Char) (b : Nat) (tr : Option Bool)
    (h : handler e req env = .success t w u m b tr) :
    50 ≤ t.length ∧ (req.mode ≠ some (str "sample") → t.length ≤ 100028) ∧
      tr = none := by
  obtain ⟨urlOpt, mode, batchIdx⟩ := req
  cases urlOpt with
  | none => exact absurd h (by simp [handler])
  | some url =>
    simp only [handler] at h
    by_cases h1 : url = []
    · rw [if_pos h1] at h
      exact absurd h (by simp)
    rw [if_neg h1] at h
    by_cases h2 : (jsParseURL url).isNone = true
    · rw [if_pos h2] at h
      exact absurd h (by simp)
    rw [if_neg h2] at h
    by_cases h3 : (decide (checkFileSize env > 1000000) && jsFalsyMode mode) = true
    · rw [if_pos h3] at h
      exact absurd h (by simp)
    rw [if_neg h3] at h
    cases hv : runPlan env (selectPlan (decide (checkFileSize env > 1000000)) mode batchIdx) with
    | error err =>
      rw [hv] at h
      exact absurd h (by simp)
    | ok content =>
      rw [hv] at h
      exact finalize_success_inv _ _ _ _ _ _ _ _ _ _ h

/-! ## C1 amended / C2 amended -/

/-- C1 amended: every success carries at least 50 characters, and — when
the requested mode is not `sample` — at most 100,028 characters: the
truncation cuts to 100,000 and then appends the 28-character marker, so
the exact ceiling is 100,028, not 100,000; sample-mode successes are not
bounded by this stage at all (counterexample below). -/
theorem C1_amended_success_bounds (e : List Char → List Char → List Char)
    (req : Request) (env : NetEnv) (t : List Char) (w : Nat)
    (u m : List Char) (b : Nat) (tr : Option Bool)
    (h : handler e req env = .success t w u m b tr) :
    50 ≤ t.length ∧
      (req.mode ≠ some (str "sample") → t.length ≤ 100028) :=
  ⟨(handler_success_inv e req env t w u m b tr h).1,
   (handler_success_inv e req env t w u m b tr h).2.1⟩

/-- Witness for C1 amended at a concrete 60-character success. -/
theorem C1_witness :
    50 ≤ (str "aaaaaaaaaaaaaaaaaaaaaaaaaaaaaaaaaaaaaaaaaaaaaaaaaaaaaaaaaaaa").length ∧
      ((⟨some (str "http://example.com/a.txt"), none, 0⟩ : Request).mode ≠
          some (str "sample") →
        (str "aaaaaaaaaaaaaaaaaaaaaaaaaaaaaaaaaaaaaaaaaaaaaaaaaaaaaaaaaaaa").length ≤
          100028) :=
  C1_amended_success_bounds (fun _ _ => [])
    ⟨some (str "http://example.com/a.txt"), none, 0⟩ envSmallTxt
    (str "aaaaaaaaaaaaaaaaaaaaaaaaaaaaaaaaaaaaaaaaaaaaaaaaaaaaaaaaaaaa") 1
    (str "http://example.com/a.txt") (str "complete") 0 none (by decide)

/-- C2 amended: success results carry no `truncated` field at all — the
object literal at src/api/scrape.js:108-115 has no such key (`none` in
the model) — so no field can signal whether truncation removed content;
the only in-band signal is the appended marker text. -/
theorem C2_amended_no_truncated_field (e : List Char → List Char → List Char)
    (req : Request) (env : NetEnv) (t : List Char) (w : Nat)
    (u m : List Char) (b : Nat) (tr : Option Bool)
    (h : handler e req env = .success t w u m b tr) :
    tr = none :=
  (handler_success_inv e req env t w u m b tr h).2.2

/-- Witness for C2 amended at a concrete success. -/
theorem C2_witness : (none : Option Bool) = none :=
  C2_amended_no_truncated_field (fun _ _ => [])
    ⟨some (str "http://example.com/a.txt"), none, 0⟩ envSmallTxt
    (str "aaaaaaaaaaaaaaaaaaaaaaaaaaaaaaaaaaaaaaaaaaaaaaaaaaaaaaaaaaaa") 1
    (str "http://example.com/a.txt") (str "complete") 0 none (by decide)

/-! ## Evaluation lemmas for long bodies -/

/-- Step equation of the splitter worker. -/
theorem jsSplitWsGo_succ_cons (fuel : Nat) (c : Char) (cs cur : List Char) :
    jsSplitWsGo (fuel + 1) (c :: cs) cur =
      if isJsWs c then cur.reverse :: jsSplitWsGo fuel (cs.dropWhile isJsWs) []
      else jsSplitWsGo fuel cs (c :: cur) := rfl

/-- Literal replacement leaves any list free of the pattern head unchanged. -/
theorem replaceGo_not_head (p : Char) (ps rep : List Char) :
    ∀ (fuel : Nat) (l : List Char), p ∉ l →
      replaceGo (p :: ps) rep fuel l = l := by
  intro fuel
  induction fuel with
  | zero => intro l _; rfl
  | succ n ih =>
    intro l hl
    cases l with
    | nil => rfl
    | cons c cs =>
      have hpc : p ≠ c := fun h => hl (h ▸ List.mem_cons_self c cs)
      have hcs : p ∉ cs := fun h => hl (List.mem_cons_of_mem c h)
      rw [replaceGo, if_neg, ih cs hcs]
      rintro ⟨-, hpre⟩
      rw [List.isPrefixOf_cons₂] at hpre
      simp only [Bool.and_eq_true, beq_iff_eq] at hpre
      exact hpc hpre.1

/-- `replaceAllL` with a pattern whose head is absent is the identity. -/
theorem replaceAllL_not_head (p : Char) (ps rep l : List Char) (hp : p ∉ l) :
    replaceAllL (p :: ps) rep l = l :=
  replaceGo_not_head p ps rep l.length l hp

/-- Newline collapsing leaves newline-free lists unchanged. -/
theorem collapseNLGo_no_nl :
    ∀ (fuel : Nat) (l : List Char), '\n' ∉ l → collapseNLGo fuel l = l := by
  intro fuel
  induction fuel with
  | zero => intro l _; rfl
  | succ n ih =>
    intro l hl
    cases l with
    | nil => rfl
    | cons c cs =>
      have hc : c ≠ '\n' := fun h => hl (h ▸ List.mem_cons_self c cs)
      have hcs : '\n' ∉ cs := fun h => hl (List.mem_cons_of_mem c h)
      rw [collapseNLGo, if_neg, ih cs hcs]
      rintro ⟨h1, -⟩
      exact hc h1

/-- `dropWhile` is the identity when the predicate fails everywhere. -/
theorem dropWhile_all_false (p : Char → Bool) (l : List Char)
    (h : ∀ c ∈ l, p c = false) : l.dropWhile p = l := by
  cases l with
  | nil => rfl
  | cons c cs =>
    rw [List.dropWhile_cons, h c (List.mem_cons_self c cs)]
    simp

/-- `trim` is the identity on whitespace-free lists. -/
theorem jsTrim_nonws (l : List Char) (h : ∀ c ∈ l, isJsWs c = false) :
    jsTrim l = l := by
  unfold jsTrim trimLeftL trimRightL
  rw [dropWhile_all_false isJsWs l h,
    dropWhile_all_false isJsWs l.reverse (fun c hc => h c (List.mem_reverse.mp hc)),
    List.reverse_reverse]

/-- The plain-text branch is the identity on whitespace-free bodies from
non-Gutenberg URLs. -/
theorem plainTextProcess_nonws (url content : List Char)
    (hg : containsL (str "gutenberg.org") url = false)
    (h : ∀ c ∈ content, isJsWs c = false) :
    plainTextProcess url content = content := by
  unfold plainTextProcess
  have hcr : '\r' ∉ content := fun hm => by
    have := h '\r' hm
    simp [isJsWs] at this
  have hnl : '\n' ∉ content := fun hm => by
    have := h '\n' hm
    simp [isJsWs] at this
  rw [show str "\r\n" = '\r' :: ['\n'] from rfl, replaceAllL_not_head _ _ _ _ hcr]
  unfold collapseNewlines
  rw [collapseNLGo_no_nl _ _ hnl, jsTrim_nonws _ h, hg]
  simp

/-- Splitting consumes a whitespace-free run in one token position. -/
theorem jsSplitWsGo_nonws_run (l : List Char)
    (h : ∀ c ∈ l, isJsWs c = false) :
    ∀ (fuel : Nat) (rest cur : List Char),
      jsSplitWsGo (l.length + fuel) (l ++ rest) cur =
        jsSplitWsGo fuel rest (l.reverse ++ cur) := by
  induction l with
  | nil => intro fuel rest cur; simp
  | cons c cs ih =>
    intro fuel rest cur
    have hc : isJsWs c = false := h c (List.mem_cons_self c cs)
    have hlen : (c :: cs).length + fuel = (cs.length + fuel) + 1 := by
      simp [Nat.add_right_comm]
    rw [hlen, List.cons_append, jsSplitWsGo_succ_cons, hc]
    simp only [Bool.false_eq_true, if_false]
    rw [ih (fun d hd => h d (List.mem_cons_of_mem c hd)) fuel rest (c :: cur)]
    simp [List.append_assoc]

/-- A nonempty whitespace-free text counts as exactly one word. -/
theorem wordCountOf_single_run (l : List Char) (hne : l ≠ [])
    (h : ∀ c ∈ l, isJsWs c = false) : wordCountOf l = 1 := by
  unfold wordCountOf jsSplitWs
  have h0 := jsSplitWsGo_nonws_run l h 0 [] []
  simp only [List.append_nil, Nat.add_zero] at h0
  rw [h0]
  show List.countP _ [l.reverse.reverse] = 1
  simp [List.countP_cons, hne]

/-- Splitting the truncation marker after any accumulated token: the
leading blank line ends the token, and the marker contributes its three
words. -/
theorem jsSplitWsGo_marker (cur : List Char) :
    jsSplitWsGo 28 truncMarker cur =
      cur.reverse :: [str "[Truncated", str "for", str "processing]"] := by
  show jsSplitWsGo (27 + 1) ('\n' :: str "\n[Truncated for processing]") cur = _
  rw [jsSplitWsGo_succ_cons, if_pos (by decide)]
  congr 1

/-- Word count of a nonempty non-whitespace run followed by the
truncation marker: the run plus the marker's three words. -/
theorem wordCountOf_run_marker (n : Nat) (hn : 0 < n) :
    wordCountOf (List.replicate n 'a' ++ truncMarker) = 4 := by
  unfold wordCountOf jsSplitWs
  have hrep : ∀ c ∈ List.replicate n 'a', isJsWs c = false := fun c hc => by
    rw [List.eq_of_mem_replicate hc]; decide
  have hlen : (List.replicate n 'a' ++ truncMarker).length = n + 28 := by
    simp [truncMarker_length]
  rw [hlen]
  have h1 := jsSplitWsGo_nonws_run (List.replicate n 'a') hrep 28 truncMarker []
  simp only [List.length_replicate, List.append_nil] at h1
  rw [h1, jsSplitWsGo_marker, List.reverse_reverse]
  have hne : (List.replicate n 'a').isEmpty = false := by
    cases n with
    | zero => omega
    | succ m => rw [List.replicate_succ]; rfl
  simp [List.countP_cons, hne]
  decide

/-- Evaluation of the handler on the small-file plain-text path: a valid
nonempty URL, a probe at or below the threshold, and an ok complete
fetch of a body within the 500,000-character ceiling produce exactly the
finalized plain-text extraction, whatever the requested mode. -/
theorem handler_complete_plain (e : List Char → List Char → List Char)
    (mode : Option (List Char)) (batchIdx : Nat) (url : List Char)
    (env : NetEnv)
    (hne : url ≠ [])
    (hparse : (jsParseURL url).isNone = false)
    (hsize : checkFileSize env ≤ 1000000)
    (hreach : env.reachable = true)
    (hok : env.getOk = true)
    (hlen : env.body.length ≤ 500000)
    (hct : (containsL (str "text/plain") (getContentType env) ||
      endsWithL (str ".txt") url) = true) :
    handler e ⟨some url, mode, batchIdx⟩ env =
      finalize mode batchIdx url (plainTextProcess url env.body) := by
  have hlarge : decide (checkFileSize env > 1000000) = false := by
    simp [Nat.not_lt.mpr hsize]
  have hplan : selectPlan (decide (checkFileSize env > 1000000)) mode batchIdx =
      FetchPlan.complete := by
    rw [hlarge]
    unfold selectPlan
    simp
  have hfetch : runPlan env (selectPlan (decide (checkFileSize env > 1000000))
      mode batchIdx) = .ok env.body := by
    rw [hplan]
    unfold runPlan fetchComplete
    rw [hreach, hok]
    simp [Nat.not_lt.mpr hlen]
  rw [hlarge] at hfetch
  simp only [handler, if_neg hne, hparse, Bool.false_eq_true, if_false,
    hlarge, Bool.false_and, hfetch, hct, if_true]

/-! ## C1 counterexample, C2 counterexample, C10 -/

/-- Evaluation of `finalize` when truncation fires. -/
theorem finalize_trunc (mode : Option (List Char)) (batchIdx : Nat)
    (url x : List Char) (hm : mode ≠ some (str "sample"))
    (hx : x.length > 100000)
    (h50 : ¬ (x.take 100000 ++ truncMarker).length < 50) :
    finalize mode batchIdx url x =
      .success (x.take 100000 ++ truncMarker)
        (wordCountOf (x.take 100000 ++ truncMarker)) url (modeEcho mode)
        batchIdx none := by
  have ht : (if mode ≠ some (str "sample") ∧ x.length > 100000 then
      x.take 100000 ++ truncMarker else x) = x.take 100000 ++ truncMarker :=
    if_pos ⟨hm, hx⟩
  simp only [finalize]
  rw [ht, if_neg h50]

/-- Evaluation of `finalize` when truncation does not fire. -/
theorem finalize_notrunc (mode : Option (List Char)) (batchIdx : Nat)
    (url x : List Char)
    (hc : ¬ (mode ≠ some (str "sample") ∧ x.length > 100000))
    (h50 : ¬ x.length < 50) :
    finalize mode batchIdx url x =
      .success x (wordCountOf x) url (modeEcho mode) batchIdx none := by
  have ht : (if mode ≠ some (str "sample") ∧ x.length > 100000 then
      x.take 100000 ++ truncMarker else x) = x := if_neg hc
  simp only [finalize]
  rw [ht, if_neg h50]

/-- A reachable endpoint serving a 100,001-character plain-text body
under a probe of 900,000 bytes. -/
def envBigTxt : NetEnv where
  reachable := true
  contentLength := some 900000
  contentType := some (str "text/plain")
  getOk := true
  getStatus := 200
  body := List.replicate 100001 'a'
  range := fun _ _ => ⟨true, 206, []⟩
  chunks := []

/-- Non-whitespace-ness of the replicated test bodies. -/
theorem replicate_a_nonws (n : Nat) :
    ∀ c ∈ List.replicate n 'a', isJsWs c = false := fun c hc => by
  rw [List.eq_of_mem_replicate hc]; decide

/-- C1 counterexample: a success whose text is 100,028 characters long —
truncation cuts to 100,000 and then appends the 28-character marker, so
the claimed 100,000 ceiling is exceeded on any non-sample request whose
extraction tops 100,000 characters. -/
theorem C1_counterexample :
    handler (fun _ _ => []) ⟨some (str "http://example.com/big.txt"), none, 0⟩
        envBigTxt =
      .success (List.replicate 100000 'a' ++ truncMarker) 4
        (str "http://example.com/big.txt") (str "complete") 0 none ∧
    100000 < (List.replicate 100000 'a' ++ truncMarker).length := by
  constructor
  · rw [handler_complete_plain (fun _ _ => []) none 0
      (str "http://example.com/big.txt") envBigTxt (by decide) (by decide)
      (by decide) rfl rfl
      (by rw [show envBigTxt.body = List.replicate 100001 'a' from rfl,
            List.length_replicate]; omega)
      (by decide)]
    rw [show envBigTxt.body = List.replicate 100001 'a' from rfl,
      plainTextProcess_nonws _ _ (by decide) (replicate_a_nonws 100001)]
    rw [finalize_trunc none 0 _ _ (by decide)
      (by rw [List.length_replicate]; omega)
      (by rw [List.length_append, List.length_take, List.length_replicate,
            truncMarker_length]; omega)]
    rw [List.take_replicate, show min 100000 100001 = 100000 from by omega,
      wordCountOf_run_marker 100000 (by omega)]
    rfl
  · rw [List.length_append, List.length_replicate, truncMarker_length]
    omega

/-- A reachable endpoint serving a 102,000-character plain-text body
under a probe of 900,000 bytes. -/
def envBigTxt2 : NetEnv where
  reachable := true
  contentLength := some 900000
  contentType := some (str "text/plain")
  getOk := true
  getStatus := 200
  body := List.replicate 102000 'a'
  range := fun _ _ => ⟨true, 206, []⟩
  chunks := []

/-- C2 counterexample: a successful response produced by a run in which
truncation removed content (pre-truncation length 102,000 > 100,000 and
the mode is not `sample`), yet the success payload carries no
`truncated` field at all (`none` in the model), let alone
`truncated = true`. -/
theorem C2_counterexample :
    handler (fun _ _ => []) ⟨some (str "http://example.com/other.txt"), none, 0⟩
        envBigTxt2 =
      .success (List.replicate 100000 'a' ++ truncMarker) 4
        (str "http://example.com/other.txt") (str "complete") 0 none ∧
    100000 < envBigTxt2.body.length ∧
    (none : Option (List Char)) ≠ some (str "sample") := by
  refine ⟨?_, by rw [show envBigTxt2.body = List.replicate 102000 'a' from rfl,
    List.length_replicate]; omega, by decide⟩
  rw [handler_complete_plain (fun _ _ => []) none 0
    (str "http://example.com/other.txt") envBigTxt2 (by decide) (by decide)
    (by decide) rfl rfl
    (by rw [show envBigTxt2.body = List.replicate 102000 'a' from rfl,
          List.length_replicate]; omega)
    (by decide)]
  rw [show envBigTxt2.body = List.replicate 102000 'a' from rfl,
    plainTextProcess_nonws _ _ (by decide) (replicate_a_nonws 102000)]
  rw [finalize_trunc none 0 _ _ (by decide)
    (by rw [List.length_replicate]; omega)
    (by rw [List.length_append, List.length_take, List.length_replicate,
          truncMarker_length]; omega)]
  rw [List.take_replicate, show min 100000 102000 = 100000 from by omega,
    wordCountOf_run_marker 100000 (by omega)]
  rfl

/-- A reachable endpoint serving a 200,000-character plain-text body
under a probe of 900,000 bytes — small enough for a complete fetch. -/
def envSampleSmall : NetEnv where
  reachable := true
  contentLength := some 900000
  contentType := some (str "text/plain")
  getOk := true
  getStatus := 200
  body := List.replicate 200000 'a'
  range := fun _ _ => ⟨true, 206, []⟩
  chunks := []

/-- C10: with mode `sample` requested for a resource probed at or below
the threshold, the selected plan is `Complete` (bounded only by the
500,000-character complete-fetch ceiling), yet the final truncation is
keyed on the requested mode and is skipped, so the success text has
200,000 > 100,000 characters while the response echoes mode `sample`. -/
theorem C10_sample_mode_small_file_exceeds_ceiling :
    selectPlan (decide (checkFileSize envSampleSmall > 1000000))
        (some (str "sample")) 0 = FetchPlan.complete ∧
    handler (fun _ _ => [])
        ⟨some (str "http://example.com/data.txt"), some (str "sample"), 0⟩
        envSampleSmall =
      .success (List.replicate 200000 'a') 1 (str "http://example.com/data.txt")
        (str "sample") 0 none ∧
    100000 < (List.replicate 200000 'a').length ∧
    (List.replicate 200000 'a').length ≤ 500000 := by
  refine ⟨by decide, ?_, by rw [List.length_replicate]; omega,
    by rw [List.length_replicate]; omega⟩
  rw [handler_complete_plain (fun _ _ => []) (some (str "sample")) 0
    (str "http://example.com/data.txt") envSampleSmall (by decide) (by decide)
    (by decide) rfl rfl
    (by rw [show envSampleSmall.body = List.replicate 200000 'a' from rfl,
          List.length_replicate]; omega)
    (by decide)]
  rw [show envSampleSmall.body = List.replicate 200000 'a' from rfl,
    plainTextProcess_nonws _ _ (by decide) (replicate_a_nonws 200000)]
  rw [finalize_notrunc (some (str "sample")) 0 _ _ (fun hcon => hcon.1 rfl)
    (by rw [List.length_replicate]; omega)]
  rw [wordCountOf_single_run _ (by
    intro h
    have := congrArg List.length h
    rw [List.length_replicate] at this
    simp at this) (replicate_a_nonws 200000)]
  rfl

/-! ## C6 amended: idempotence on entity-free, tag-free inputs -/

/-- Entity replacement is the identity on ampersand-free lists (every
entity pattern starts with `&`). -/
theorem replaceAllL_amp (pat rep l : List Char) (hp : pat.head? = some '&')
    (h : '&' ∉ l) : replaceAllL pat rep l = l := by
  cases pat with
  | nil => simp at hp
  | cons p ps =>
    obtain rfl : p = '&' := by simpa using hp
    exact replaceAllL_not_head '&' ps rep l h

/-- The decode pass is the identity on ampersand-free lists. -/
theorem decodeEntities_no_amp (l : List Char) (h : '&' ∉ l) :
    decodeEntities l = l := by
  simp only [decodeEntities]
  rw [replaceAllL_amp _ _ l (by decide) h, replaceAllL_amp _ _ l (by decide) h,
    replaceAllL_amp _ _ l (by decide) h, replaceAllL_amp _ _ l (by decide) h,
    replaceAllL_amp _ _ l (by decide) h, replaceAllL_amp _ _ l (by decide) h,
    replaceAllL_amp _ _ l (by decide) h]

/-- Tag stripping is the identity when no `<` occurs. -/
theorem stripTagsGo_no_lt :
    ∀ (fuel : Nat) (l : List Char), '<' ∉ l → stripTagsGo fuel l = l := by
  intro fuel
  induction fuel with
  | zero => intro l _; rfl
  | succ n ih =>
    intro l hl
    cases l with
    | nil => rfl
    | cons c cs =>
      have hc : c ≠ '<' := fun h => hl (h ▸ List.mem_cons_self c cs)
      have hcs : '<' ∉ cs := fun h => hl (List.mem_cons_of_mem c h)
      rw [stripTagsGo, if_neg, ih cs hcs]
      rintro ⟨h1, -⟩
      exact hc h1

/-- `stripTags` is the identity when no `<` occurs. -/
theorem stripTags_no_lt (l : List Char) (h : '<' ∉ l) : stripTags l = l :=
  stripTagsGo_no_lt l.length l h

/-- Every character of the collapsed list comes from the input or is the
replacement space. -/
theorem collapseWs_mem :
    ∀ (l : List Char), ∀ c ∈ collapseWs l, c ∈ l ∨ c = ' ' := by
  intro l
  induction l with
  | nil => intro c hc; simp [collapseWs] at hc
  | cons a t ih =>
    cases t with
    | nil =>
      intro c hc
      by_cases ha : isJsWs a
      · simp [collapseWs, ha] at hc
        exact Or.inr hc
      · simp [collapseWs, ha] at hc
        exact Or.inl (by simp [hc])
    | cons b t' =>
      intro c hc
      by_cases hab : isJsWs a && isJsWs b
      · rw [show collapseWs (a :: b :: t') = collapseWs (b :: t') from by
          rw [collapseWs, if_pos hab]] at hc
        rcases ih c hc with h | h
        · exact Or.inl (List.mem_cons_of_mem a h)
        · exact Or.inr h
      · rw [show collapseWs (a :: b :: t') =
            (if isJsWs a then ' ' else a) :: collapseWs (b :: t') from by
          rw [collapseWs, if_neg hab]] at hc
        rcases List.mem_cons.mp hc with h | h
        · by_cases ha : isJsWs a
          · rw [if_pos ha] at h
            exact Or.inr h
          · rw [if_neg ha] at h
            exact Or.inl (h ▸ List.mem_cons_self a (b :: t'))
        · rcases ih c h with h2 | h2
          · exact Or.inl (List.mem_cons_of_mem a h2)
          · exact Or.inr h2

/-- Characters of the trimmed list come from the input. -/
theorem jsTrim_mem (l : List Char) (c : Char) (hc : c ∈ jsTrim l) : c ∈ l := by
  unfold jsTrim trimRightL trimLeftL at hc
  have h1 := List.mem_reverse.mp hc
  have h2 := (List.dropWhile_sublist (l := (l.dropWhile isJsWs).reverse) isJsWs).mem h1
  exact (List.dropWhile_sublist isJsWs).mem (List.mem_reverse.mp h2)

/-- Normal form of whitespace after collapsing: every whitespace
character is the single space, and no two adjacent characters are both
whitespace. -/
def wsOk : List Char → Bool
  | [] => true
  | [c] => !isJsWs c || c == ' '
  | c :: d :: cs => ((!isJsWs c) || (c == ' ' && !isJsWs d)) && wsOk (d :: cs)

/-- Collapsing a list whose head is not whitespace keeps the head. -/
theorem collapseWs_cons_nonws (d : Char) (cs : List Char)
    (h : isJsWs d = false) : collapseWs (d :: cs) = d :: collapseWs cs := by
  cases cs with
  | nil => simp [collapseWs, h]
  | cons e cs' =>
    rw [collapseWs, if_neg (by simp [h]), if_neg (by simp [h])]

/-- `wsOk` ignores a non-whitespace head. -/
theorem wsOk_cons_nonws (a : Char) (X : List Char) (ha : isJsWs a = false)
    (hX : wsOk X = true) : wsOk (a :: X) = true := by
  cases X with
  | nil => simp [wsOk, ha]
  | cons x xs => simp [wsOk, ha, hX]

/-- `wsOk` accepts a space followed by a non-whitespace character. -/
theorem wsOk_space_cons (b : Char) (Y : List Char) (hb : isJsWs b = false)
    (hY : wsOk (b :: Y) = true) : wsOk (' ' :: b :: Y) = true := by
  simp [wsOk, hb]
  exact hY

/-- The tail of a `wsOk` list is `wsOk`. -/
theorem wsOk_tail (c : Char) (cs : List Char) (h : wsOk (c :: cs) = true) :
    wsOk cs = true := by
  cases cs with
  | nil => rfl
  | cons d ds =>
    rw [wsOk] at h
    simp only [Bool.and_eq_true] at h
    exact h.2

/-- Collapsing always produces a `wsOk` list. -/
theorem collapseWs_wsOk : ∀ (l : List Char), wsOk (collapseWs l) = true := by
  intro l
  induction l with
  | nil => rfl
  | cons a t ih =>
    cases t with
    | nil =>
      by_cases ha : isJsWs a <;> simp [collapseWs, wsOk, ha]
    | cons b t' =>
      by_cases hab : isJsWs a && isJsWs b
      · rw [show collapseWs (a :: b :: t') = collapseWs (b :: t') from by
          rw [collapseWs, if_pos hab]]
        exact ih
      · rw [show collapseWs (a :: b :: t') =
            (if isJsWs a then ' ' else a) :: collapseWs (b :: t') from by
          rw [collapseWs, if_neg hab]]
        by_cases ha : isJsWs a
        · have hb : isJsWs b = false := by
            rcases Bool.and_eq_false_iff.mp (Bool.not_eq_true _ ▸ hab) with h | h
            · rw [ha] at h; exact absurd h (by simp)
            · exact h
          rw [if_pos ha, collapseWs_cons_nonws b t' hb]
          rw [collapseWs_cons_nonws b t' hb] at ih
          exact wsOk_space_cons b (collapseWs t') hb ih
        · rw [if_neg ha]
          exact wsOk_cons_nonws a _ (Bool.not_eq_true _ ▸ Bool.of_not_eq_true ha) ih

/-- Collapsing is the identity on `wsOk` lists. -/
theorem wsOk_collapse_id : ∀ (l : List Char), wsOk l = true → collapseWs l = l := by
  intro l
  induction l with
  | nil => intro _; rfl
  | cons a t ih =>
    cases t with
    | nil =>
      intro h
      by_cases ha : isJsWs a
      · have : a = ' ' := by
          rw [wsOk] at h
          rcases Bool.or_eq_true_iff.mp h with h1 | h1
          · rw [ha] at h1; exact absurd h1 (by simp)
          · exact beq_iff_eq.mp h1
        simp [collapseWs, ha, this]
      · simp [collapseWs, ha]
    | cons b t' =>
      intro h
      rw [wsOk] at h
      simp only [Bool.and_eq_true] at h
      obtain ⟨hd, tl⟩ := h
      by_cases ha : isJsWs a
      · have hab : a = ' ' ∧ isJsWs b = false := by
          rcases Bool.or_eq_true_iff.mp hd with h1 | h1
          · rw [ha] at h1; exact absurd h1 (by simp)
          · simp only [Bool.and_eq_true, beq_iff_eq, Bool.not_eq_true'] at h1
            exact h1
        rw [collapseWs, if_neg (by simp [hab.2]), if_pos ha, ih tl, hab.1]
      · rw [collapseWs, if_neg (by simp [ha]), if_neg ha, ih tl]

/-- `dropWhile` preserves `wsOk` (it removes a prefix). -/
theorem wsOk_dropWhile (p : Char → Bool) :
    ∀ (l : List Char), wsOk l = true → wsOk (l.dropWhile p) = true := by
  intro l
  induction l with
  | nil => intro _; rfl
  | cons c cs ih =>
    intro h
    rw [List.dropWhile_cons]
    split
    · exact ih (wsOk_tail c cs h)
    · exact h

/-- `wsOk` restricts to the left part of an append. -/
theorem wsOk_append_left :
    ∀ (l₁ l₂ : List Char), wsOk (l₁ ++ l₂) = true → wsOk l₁ = true := by
  intro l₁
  induction l₁ with
  | nil => intro _ _; rfl
  | cons a t ih =>
    intro l₂ h
    cases t with
    | nil =>
      cases l₂ with
      | nil => exact h
      | cons x xs =>
        rw [List.cons_append, List.nil_append, wsOk] at h
        simp only [Bool.and_eq_true] at h
        rcases Bool.or_eq_true_iff.mp h.1 with h1 | h1
        · simp [wsOk, h1]
        · simp only [Bool.and_eq_true, beq_iff_eq] at h1
          simp [wsOk, h1.1]
    | cons b t' =>
      rw [List.cons_append, List.cons_append, wsOk] at h
      simp only [Bool.and_eq_true] at h
      rw [wsOk]
      simp only [Bool.and_eq_true]
      exact ⟨h.1, ih l₂ (by rw [List.cons_append]; exact h.2)⟩

/-- The right trim is a prefix of its input. -/
theorem trimRightL_is_pre (l : List Char) :
    l = trimRightL l ++ (l.reverse.takeWhile isJsWs).reverse := by
  unfold trimRightL
  rw [← List.reverse_append, List.takeWhile_append_dropWhile, List.reverse_reverse]

/-- The trimmed list is `wsOk` whenever the input is. -/
theorem wsOk_jsTrim (l : List Char) (h : wsOk l = true) :
    wsOk (jsTrim l) = true := by
  unfold jsTrim
  have h1 : wsOk (trimLeftL l) = true := wsOk_dropWhile isJsWs l h
  exact wsOk_append_left _ _ ((trimRightL_is_pre (trimLeftL l)) ▸ h1)

/-- `dropWhile` is idempotent. -/
theorem dropWhile_dropWhile (p : Char → Bool) :
    ∀ (l : List Char), (l.dropWhile p).dropWhile p = l.dropWhile p := by
  intro l
  induction l with
  | nil => rfl
  | cons c cs ih =>
    rw [List.dropWhile_cons]
    split
    · exact ih
    · rw [List.dropWhile_cons, if_neg (by assumption)]

/-- Left trim is idempotent. -/
theorem trimLeftL_idem (l : List Char) : trimLeftL (trimLeftL l) = trimLeftL l :=
  dropWhile_dropWhile isJsWs l

/-- Right trim is idempotent. -/
theorem trimRightL_idem (l : List Char) :
    trimRightL (trimRightL l) = trimRightL l := by
  unfold trimRightL
  rw [List.reverse_reverse, dropWhile_dropWhile]

/-- The head surviving `dropWhile` falsifies the predicate. -/
theorem head_dropWhile (p : Char → Bool) :
    ∀ (l : List Char) (c : Char), (l.dropWhile p).head? = some c → p c = false := by
  intro l
  induction l with
  | nil => intro c hc; simp at hc
  | cons a t ih =>
    intro c hc
    rw [List.dropWhile_cons] at hc
    by_cases ha : p a
    · rw [if_pos ha] at hc
      exact ih c hc
    · rw [if_neg ha] at hc
      simp at hc
      rw [← hc]
      exact Bool.not_eq_true _ ▸ Bool.of_not_eq_true ha

/-- Left trim is the identity on lists whose head is not whitespace. -/
theorem trimLeftL_eq_self (l : List Char)
    (h : ∀ c, l.head? = some c → isJsWs c = false) : trimLeftL l = l := by
  cases l with
  | nil => rfl
  | cons c cs =>
    unfold trimLeftL
    rw [List.dropWhile_cons, if_neg (by simp [h c rfl])]

/-- The full trim is idempotent. -/
theorem jsTrim_idem (l : List Char) : jsTrim (jsTrim l) = jsTrim l := by
  unfold jsTrim
  have h1 : trimLeftL (trimRightL (trimLeftL l)) = trimRightL (trimLeftL l) := by
    apply trimLeftL_eq_self
    intro c hc
    cases hY : trimRightL (trimLeftL l) with
    | nil => rw [hY] at hc; simp at hc
    | cons y ys =>
      rw [hY] at hc
      simp at hc
      have hsplit := trimRightL_is_pre (trimLeftL l)
      rw [hY] at hsplit
      apply head_dropWhile isJsWs l
      show (trimLeftL l).head? = some c
      rw [hsplit]
      simp [hc]
  rw [h1, trimRightL_idem]

/-- C6 counterexample shows `clean` is not idempotent in general: a
doubly-encoded entity (`"&amp;quot;"`) decodes one further level on each
application.  C6 amended: `clean` IS idempotent on inputs free of `&`
and `<` — there the decode and strip passes are the identity, and the
whitespace collapse followed by trim is idempotent. -/
theorem C6_amended_idempotent_on_plain (l : List Char)
    (hamp : '&' ∉ l) (hlt : '<' ∉ l) :
    cleanText (cleanText l) = cleanText l := by
  have h1 : cleanText l = jsTrim (collapseWs l) := by
    unfold cleanText
    rw [decodeEntities_no_amp l hamp, stripTags_no_lt l hlt]
  have hmem : ∀ c ∈ jsTrim (collapseWs l), c ∈ l ∨ c = ' ' := fun c hc =>
    collapseWs_mem l c (jsTrim_mem _ c hc)
  have hamp2 : '&' ∉ jsTrim (collapseWs l) := by
    intro hc
    rcases hmem '&' hc with h | h
    · exact hamp h
    · exact absurd h (by decide)
  have hlt2 : '<' ∉ jsTrim (collapseWs l) := by
    intro hc
    rcases hmem '<' hc with h | h
    · exact hlt h
    · exact absurd h (by decide)
  rw [h1]
  unfold cleanText
  rw [decodeEntities_no_amp _ hamp2, stripTags_no_lt _ hlt2,
    wsOk_collapse_id _ (wsOk_jsTrim _ (collapseWs_wsOk l)), jsTrim_idem]

/-- Witness for C6 amended at a concrete entity-free input with
whitespace to normalise. -/
theorem C6_witness :
    cleanText (cleanText (str "  a  b  ")) = cleanText (str "  a  b  ") :=
  C6_amended_idempotent_on_plain (str "  a  b  ") (by decide) (by decide)
